import Mathlib

/-!
Verification of the model context-window cache of the Proma repository
(`normalizeModelId`, `setModelContextWindow`, `getModelContextWindow`).

The cache is a process-wide `Map<string, number>`; keys are model
identifiers normalized by trimming surrounding whitespace and
lowercasing; values are `Math.floor` of the reported context window.
JavaScript numbers are embedded as `nan`, the two infinities, or a
finite rational; the `Map` is embedded as an association list with the
insert-or-replace semantics of `Map.set` and the first-match semantics
of `Map.get`.
-/

namespace Proma

/-- Embedding of a JavaScript `number`: NaN, the two infinities, or a
finite value (modelled as a rational). -/
inductive JSNumber : Type where
  | nan : JSNumber
  | posInf : JSNumber
  | negInf : JSNumber
  | finite : ℚ → JSNumber
deriving DecidableEq, Repr

/-- Embedding of `Number.isFinite`. -/
def JSNumber.isFinite : JSNumber → Bool
  | .finite _ => true
  | _ => false

/-- Embedding of the JavaScript comparison `a <= b` (false whenever an
operand is NaN). -/
def jsLe : JSNumber → JSNumber → Bool
  | .nan, _ => false
  | _, .nan => false
  | .negInf, _ => true
  | _, .posInf => true
  | .posInf, _ => false
  | _, .negInf => false
  | .finite a, .finite b => decide (a ≤ b)

/-- Embedding of `Math.floor`. -/
def jsFloor : JSNumber → JSNumber
  | .nan => .nan
  | .posInf => .posInf
  | .negInf => .negInf
  | .finite q => .finite (⌊q⌋ : ℚ)

/-- The cache state: an association list standing for the
`Map<string, number>` `modelContextWindowCache`. -/
abbrev Registry := List (String × JSNumber)

/-- Embedding of `Map.set`: replace the value at an existing key in
place, otherwise append the new entry. -/
def mapSet : Registry → String → JSNumber → Registry
  | [], k, v => [(k, v)]
  | (k', v') :: rest, k, v =>
      if k' = k then (k', v) :: rest else (k', v') :: mapSet rest k v

/-- Embedding of `Map.get`: the value at the first matching key, or
`none` (for `undefined`). -/
def mapGet : Registry → String → Option JSNumber
  | [], _ => none
  | (k', v') :: rest, k => if k' = k then some v' else mapGet rest k

/-- Embedding of `String.prototype.trim`: drop whitespace characters
from both ends. -/
def trimStr (s : String) : String :=
  String.mk
    (((s.data.dropWhile Char.isWhitespace).reverse.dropWhile
        Char.isWhitespace).reverse)

/-- Embedding of `modelId.trim().toLowerCase()` (source
`normalizeModelId`): trim, then lowercase each character. -/
def normalizeModelId (modelId : String) : String :=
  String.mk ((trimStr modelId).data.map Char.toLower)

/-- Embedding of `setModelContextWindow`: no-op on falsy `modelId` or on
a non-finite or non-positive `contextWindow`; otherwise store the floor
under the normalized key. -/
def setModelContextWindow (cache : Registry) (modelId : String)
    (contextWindow : JSNumber) : Registry :=
  if modelId = "" then cache
  else if !contextWindow.isFinite || jsLe contextWindow (.finite 0) then cache
  else mapSet cache (normalizeModelId modelId) (jsFloor contextWindow)

/-- Embedding of `getModelContextWindow`: `undefined` on falsy
`modelId`, otherwise the map entry at the normalized key. -/
def getModelContextWindow (cache : Registry) (modelId : String) :
    Option JSNumber :=
  if modelId = "" then none
  else mapGet cache (normalizeModelId modelId)

/-- A call against the registry: a `setModelContextWindow` write or a
`getModelContextWindow` read. -/
inductive Op : Type where
  | record : String → JSNumber → Op
  | lookup : String → Op

/-- Whether an operation is a write. -/
def Op.isRecord : Op → Bool
  | .record _ _ => true
  | .lookup _ => false

/-- One call: the registry afterwards, and the value a lookup returns. -/
def step (cache : Registry) : Op → Registry × Option JSNumber
  | .record m w => (setModelContextWindow cache m w, none)
  | .lookup m => (cache, getModelContextWindow cache m)

/-- Run a sequence of calls, keeping the final registry. -/
def run (cache : Registry) : List Op → Registry
  | [] => cache
  | op :: ops => run (step cache op).1 ops

/-- Run a sequence of `setModelContextWindow` calls. -/
def runRecords (calls : List (String × JSNumber)) (cache : Registry) :
    Registry :=
  calls.foldl (fun c p => setModelContextWindow c p.1 p.2) cache

/-- Whether a stored value is a finite integer at least `lo`. -/
def isIntegerAtLeast (lo : ℚ) : JSNumber → Bool
  | .finite q => decide (q.den = 1 ∧ lo ≤ q)
  | _ => false

end Proma

namespace Proma

theorem mapGet_mapSet_self (c : Registry) (k : String) (v : JSNumber) :
    mapGet (mapSet c k v) k = some v := by
  induction c with
  | nil => simp [mapSet, mapGet]
  | cons hd tl ih =>
      obtain ⟨k', v'⟩ := hd
      by_cases h : k' = k
      · simp [mapSet, mapGet, h]
      · simp [mapSet, mapGet, h, ih]

theorem mapGet_mapSet_ne (c : Registry) (k k' : String) (v : JSNumber)
    (h : k ≠ k') : mapGet (mapSet c k v) k' = mapGet c k' := by
  induction c with
  | nil => simp [mapSet, mapGet, h]
  | cons hd tl ih =>
      obtain ⟨k₀, v₀⟩ := hd
      by_cases h₀ : k₀ = k
      · subst h₀
        simp [mapSet, mapGet, h]
      · simp [mapSet, mapGet, h₀, ih]

theorem mem_mapSet (c : Registry) (k : String) (v : JSNumber)
    (p : String × JSNumber) (hp : p ∈ mapSet c k v) :
    p ∈ c ∨ (p.1 = k ∧ p.2 = v) := by
  induction c with
  | nil =>
      simp [mapSet] at hp
      subst hp
      exact Or.inr ⟨rfl, rfl⟩
  | cons hd tl ih =>
      obtain ⟨k', v'⟩ := hd
      by_cases h : k' = k
      · subst h
        simp [mapSet] at hp
        rcases hp with hp | hp
        · subst hp
          exact Or.inr ⟨rfl, rfl⟩
        · exact Or.inl (List.mem_cons_of_mem _ hp)
      · simp [mapSet, h] at hp
        rcases hp with hp | hp
        · subst hp
          exact Or.inl (List.mem_cons_self _ _)
        · rcases ih hp with h₁ | h₁
          · exact Or.inl (List.mem_cons_of_mem _ h₁)
          · exact Or.inr h₁

theorem eq_empty_of_data_eq_nil (s : String) (h : s.data = []) : s = "" := by
  cases s with
  | mk l =>
      have hl : l = [] := h
      rw [hl]

theorem mapGet_eq_none (c : Registry) (k : String)
    (h : ∀ p ∈ c, p.1 ≠ k) : mapGet c k = none := by
  induction c with
  | nil => simp [mapGet]
  | cons hd tl ih =>
      obtain ⟨k', v'⟩ := hd
      have hk : k' ≠ k := h (k', v') (List.mem_cons_self _ _)
      simp [mapGet, hk]
      exact ih fun p hp => h p (List.mem_cons_of_mem _ hp)

theorem mem_setModelContextWindow (cache : Registry) (m : String)
    (w : JSNumber) (p : String × JSNumber)
    (hp : p ∈ setModelContextWindow cache m w) :
    p ∈ cache ∨
      (m ≠ "" ∧ w.isFinite = true ∧ jsLe w (.finite 0) = false ∧
        p.1 = normalizeModelId m ∧ p.2 = jsFloor w) := by
  by_cases h1 : m = ""
  · simp [setModelContextWindow, h1] at hp
    exact Or.inl hp
  · by_cases h2 : (!w.isFinite || jsLe w (.finite 0)) = true
    · simp only [setModelContextWindow, if_neg h1, if_pos h2] at hp
      exact Or.inl hp
    · simp only [setModelContextWindow, if_neg h1, if_neg h2] at hp
      rcases mem_mapSet _ _ _ _ hp with h | h
      · exact Or.inl h
      · rw [Bool.or_eq_true, Bool.not_eq_true'] at h2
        push_neg at h2
        refine Or.inr ⟨h1, ?_, ?_, h.1, h.2⟩
        · exact Bool.of_not_eq_false h2.1
        · exact Bool.of_not_eq_true h2.2

theorem mem_runRecords (calls : List (String × JSNumber)) (cache : Registry)
    (p : String × JSNumber) (hp : p ∈ runRecords calls cache) :
    p ∈ cache ∨
      ∃ c ∈ calls, c.1 ≠ "" ∧ c.2.isFinite = true ∧
        jsLe c.2 (.finite 0) = false ∧
        p.1 = normalizeModelId c.1 ∧ p.2 = jsFloor c.2 := by
  induction calls generalizing cache with
  | nil => exact Or.inl hp
  | cons c rest ih =>
      rcases ih (setModelContextWindow cache c.1 c.2) hp with h | ⟨c', hc', hrest⟩
      · rcases mem_setModelContextWindow _ _ _ _ h with h₁ | h₁
        · exact Or.inl h₁
        · exact Or.inr ⟨c, List.mem_cons_self _ _, h₁⟩
      · exact Or.inr ⟨c', List.mem_cons_of_mem _ hc', hrest⟩

end Proma

namespace Proma

/-- C1: for every truthy `modelId` and every finite `contextWindow > 0`,
`getModelContextWindow` immediately after
`setModelContextWindow modelId contextWindow` returns
`floor contextWindow`. -/
theorem record_then_lookup_returns_floor (cache : Registry) (m : String)
    (q : ℚ) (hm : m ≠ "") (hq : 0 < q) :
    getModelContextWindow (setModelContextWindow cache m (JSNumber.finite q)) m
      = some (JSNumber.finite (⌊q⌋ : ℚ)) := by
  simp [setModelContextWindow, getModelContextWindow, hm, JSNumber.isFinite,
    jsLe, hq.not_le, jsFloor, mapGet_mapSet_self]

/-- C1 witness: recording 1000 for key m then looking m up yields 1000. -/
theorem record_then_lookup_returns_floor_witness :
    ("m" : String) ≠ "" ∧ (0 : ℚ) < 1000 ∧
      getModelContextWindow
        (setModelContextWindow [] "m" (JSNumber.finite 1000)) "m"
        = some (JSNumber.finite 1000) :=
  ⟨by decide, by decide,
    (record_then_lookup_returns_floor [] "m" 1000 (by decide)
        (by decide)).trans (by decide)⟩

/-- C2: two valid writes to the same key leave the value of the second:
last write wins. -/
theorem record_record_last_write_wins (cache : Registry) (m : String)
    (q₁ q₂ : ℚ) (hm : m ≠ "") (h₁ : 0 < q₁) (h₂ : 0 < q₂) :
    getModelContextWindow
      (setModelContextWindow
        (setModelContextWindow cache m (JSNumber.finite q₁))
        m (JSNumber.finite q₂)) m
      = some (JSNumber.finite (⌊q₂⌋ : ℚ)) := by
  simp [setModelContextWindow, getModelContextWindow, hm, JSNumber.isFinite,
    jsLe, h₁.not_le, h₂.not_le, jsFloor, mapGet_mapSet_self]

/-- C2 witness: recording 100 then 200 for key m leaves lookup at 200. -/
theorem record_record_last_write_wins_witness :
    ("m" : String) ≠ "" ∧ (0 : ℚ) < 100 ∧ (0 : ℚ) < 200 ∧
      getModelContextWindow
        (setModelContextWindow
          (setModelContextWindow [] "m" (JSNumber.finite 100))
          "m" (JSNumber.finite 200)) "m"
        = some (JSNumber.finite 200) :=
  ⟨by decide, by decide, by decide,
    (record_record_last_write_wins [] "m" 100 200 (by decide) (by decide)
        (by decide)).trans (by decide)⟩

/-- C3: a valid write is visible to a lookup through any key with the
same normalization (equal up to case and surrounding whitespace). -/
theorem lookup_respects_normalization (cache : Registry) (m m' : String)
    (q : ℚ) (hm : m ≠ "") (hm' : m' ≠ "")
    (hnorm : normalizeModelId m' = normalizeModelId m) (hq : 0 < q) :
    getModelContextWindow (setModelContextWindow cache m (JSNumber.finite q))
        m'
      = some (JSNumber.finite (⌊q⌋ : ℚ)) := by
  simp [setModelContextWindow, getModelContextWindow, hm, hm', hnorm,
    JSNumber.isFinite, jsLe, hq.not_le, jsFloor, mapGet_mapSet_self]

/-- C3 witness: recording 50 under Model-X is found under
a case and whitespace variant of the key. -/
theorem lookup_respects_normalization_witness :
    ("Model-X" : String) ≠ "" ∧ ("  model-x  " : String) ≠ "" ∧
      normalizeModelId "  model-x  " = normalizeModelId "Model-X" ∧
      (0 : ℚ) < 50 ∧
      getModelContextWindow
        (setModelContextWindow [] "Model-X" (JSNumber.finite 50))
        "  model-x  "
        = some (JSNumber.finite 50) :=
  ⟨by decide, by decide, by decide, by decide,
    (lookup_respects_normalization [] "Model-X" "  model-x  " 50 (by decide)
        (by decide) (by decide) (by decide)).trans (by decide)⟩

/-- C4: a write whose window is not finite or compares at most 0 leaves
the registry exactly unchanged, for every key and prior state. -/
theorem invalid_window_record_noop (cache : Registry) (m : String)
    (w : JSNumber)
    (h : w.isFinite = false ∨ jsLe w (.finite 0) = true) :
    setModelContextWindow cache m w = cache := by
  unfold setModelContextWindow
  rcases h with h | h <;> simp [h]

/-- C4 witness: recording NaN for key m preserves a registry that
already holds 100 for m. -/
theorem invalid_window_record_noop_witness :
    (JSNumber.nan.isFinite = false ∨ jsLe JSNumber.nan (.finite 0) = true) ∧
      setModelContextWindow [("m", JSNumber.finite 100)] "m" JSNumber.nan
        = [("m", JSNumber.finite 100)] :=
  ⟨by decide,
    invalid_window_record_noop [("m", JSNumber.finite 100)] "m" JSNumber.nan
      (by decide)⟩

/-- C7: the stored value of a valid write is the integer floor of the
supplied window, also when the window is not an integer. -/
theorem record_floors_fractional_window (cache : Registry) (m : String)
    (q : ℚ) (hm : m ≠ "") (hq : 0 < q) :
    getModelContextWindow (setModelContextWindow cache m (JSNumber.finite q)) m
      = some (JSNumber.finite (⌊q⌋ : ℚ)) := by
  simp [setModelContextWindow, getModelContextWindow, hm, JSNumber.isFinite,
    jsLe, hq.not_le, jsFloor, mapGet_mapSet_self]

/-- C7 witness: recording 100.9 for key m then looking m up yields 100. -/
theorem record_floors_fractional_window_witness :
    ("m" : String) ≠ "" ∧ (0 : ℚ) < Rat.divInt 1009 10 ∧
      getModelContextWindow
        (setModelContextWindow [] "m" (JSNumber.finite (Rat.divInt 1009 10)))
        "m"
        = some (JSNumber.finite 100) :=
  ⟨by decide, by decide,
    (record_floors_fractional_window [] "m" (Rat.divInt 1009 10) (by decide)
        (by decide)).trans (by decide)⟩

/-- C8: with an empty `modelId`, a write leaves any registry unchanged
and a lookup returns `none`, whatever the registry holds. -/
theorem empty_modelId_noop_and_lookup_none (cache : Registry)
    (w : JSNumber) :
    setModelContextWindow cache "" w = cache ∧
      getModelContextWindow cache "" = none := by
  constructor <;> simp [setModelContextWindow, getModelContextWindow]

/-- C5 counterexample: recording the window 1/2 for key m passes the
positivity guard yet stores floor (1/2) = 0, so a later lookup of m
returns 0 — the stored value is not an integer at least 1. -/
theorem record_half_makes_lookup_zero :
    getModelContextWindow
        (runRecords [("m", JSNumber.finite (Rat.divInt 1 2))] []) "m"
      = some (JSNumber.finite 0) ∧
      isIntegerAtLeast 1 (JSNumber.finite 0) = false := by
  constructor <;> decide

/-- C5 amended: after any sequence of writes starting from the empty
registry, every entry value is a finite integer at least 0 (so lookups
never return a negative number; a write of a window strictly between 0
and 1 can still store 0). -/
theorem runRecords_values_are_nonneg_integers
    (calls : List (String × JSNumber)) (p : String × JSNumber)
    (hp : p ∈ runRecords calls []) : isIntegerAtLeast 0 p.2 = true := by
  rcases mem_runRecords calls [] p hp with h | ⟨c, _, _, hfin, hle, _, hval⟩
  · cases h
  · obtain ⟨q, hq2⟩ : ∃ q, c.2 = JSNumber.finite q := by
      cases hw : c.2 with
      | finite q => exact ⟨q, rfl⟩
      | nan => simp [hw, JSNumber.isFinite] at hfin
      | posInf => simp [hw, JSNumber.isFinite] at hfin
      | negInf => simp [hw, JSNumber.isFinite] at hfin
    rw [hq2] at hle hval
    have hq : 0 < q := by
      by_contra hcon
      push_neg at hcon
      simp [jsLe, hcon] at hle
    rw [hval]
    simp only [jsFloor, isIntegerAtLeast]
    refine decide_eq_true ⟨Rat.den_intCast _, ?_⟩
    exact_mod_cast Int.floor_nonneg.mpr hq.le

/-- C5 amended witness: recording 5/2 stores the entry (m, 2), whose
value is a nonnegative integer. -/
theorem runRecords_values_are_nonneg_integers_witness :
    (("m", JSNumber.finite 2) ∈
        runRecords [("m", JSNumber.finite (Rat.divInt 5 2))] []) ∧
      isIntegerAtLeast 0 (("m", JSNumber.finite 2) : String × JSNumber).2
        = true :=
  ⟨by decide,
    runRecords_values_are_nonneg_integers
      [("m", JSNumber.finite (Rat.divInt 5 2))] ("m", JSNumber.finite 2)
      (by decide)⟩

/-- C6 counterexample: the whitespace-only key " " is truthy, so the
write is not dropped, and its normalized key is the empty string: the
registry gains an entry with empty key. -/
theorem whitespace_modelId_stores_empty_key :
    setModelContextWindow [] " " (JSNumber.finite 100)
      = [("", JSNumber.finite 100)] := by decide

/-- C6 amended: when every recorded `modelId` keeps a character after
trimming, no entry of the registry has an empty key (a non-empty but
whitespace-only `modelId` does create an empty-key entry). -/
theorem runRecords_keys_nonempty_of_trim_nonempty
    (calls : List (String × JSNumber))
    (h : ∀ c ∈ calls, trimStr c.1 ≠ "") (p : String × JSNumber)
    (hp : p ∈ runRecords calls []) : p.1 ≠ "" := by
  rcases mem_runRecords calls [] p hp with h₀ | ⟨c, hc, _, _, _, hkey, _⟩
  · cases h₀
  · rw [hkey]
    unfold normalizeModelId
    intro hempty
    have hdata : (trimStr c.1).data.map Char.toLower = [] :=
      congrArg String.data hempty
    have hnil : (trimStr c.1).data = [] := List.map_eq_nil_iff.mp hdata
    exact h c hc (eq_empty_of_data_eq_nil _ hnil)

/-- C6 amended witness: recording 50 under Model-X yields only the
non-empty key model-x. -/
theorem runRecords_keys_nonempty_of_trim_nonempty_witness :
    (∀ c ∈ ([("Model-X", JSNumber.finite 50)] :
        List (String × JSNumber)), trimStr c.1 ≠ "") ∧
      (("model-x", JSNumber.finite 50) ∈
        runRecords [("Model-X", JSNumber.finite 50)] []) ∧
      (("model-x", JSNumber.finite 50) : String × JSNumber).1 ≠ "" :=
  ⟨by decide, by decide,
    runRecords_keys_nonempty_of_trim_nonempty
      [("Model-X", JSNumber.finite 50)] (by decide)
      ("model-x", JSNumber.finite 50) (by decide)⟩

/-- C9: a lookup leaves the registry unchanged, and dropping every
lookup from a call sequence leaves the final registry unchanged, so
lookups interleaved between writes never affect later lookups. -/
theorem lookup_is_pure_read (cache : Registry) (ops : List Op)
    (m : String) :
    (step cache (Op.lookup m)).1 = cache ∧
      run cache ops = run cache (ops.filter Op.isRecord) := by
  refine ⟨rfl, ?_⟩
  induction ops generalizing cache with
  | nil => rfl
  | cons op rest ih =>
      cases op with
      | record m' w => simp [run, step, List.filter_cons, Op.isRecord, ih]
      | lookup m' => simp [run, step, List.filter_cons, Op.isRecord, ih]

/-- C10: a lookup of a truthy key whose normalization matches no
recorded call returns `none`; in particular looking up a key never
recorded returns the not-found sentinel rather than an error. -/
theorem lookup_unrecorded_key_returns_none
    (calls : List (String × JSNumber)) (m : String) (hm : m ≠ "")
    (h : ∀ c ∈ calls, normalizeModelId c.1 ≠ normalizeModelId m) :
    getModelContextWindow (runRecords calls []) m = none := by
  unfold getModelContextWindow
  rw [if_neg hm]
  apply mapGet_eq_none
  intro p hp
  rcases mem_runRecords calls [] p hp with h₀ | ⟨c, hc, _, _, _, hkey, _⟩
  · cases h₀
  · rw [hkey]
    exact h c hc

/-- C10 witness: after recording a window for key a, looking up the
never-recorded key never-seen returns none. -/
theorem lookup_unrecorded_key_returns_none_witness :
    ("never-seen" : String) ≠ "" ∧
      (∀ c ∈ ([("a", JSNumber.finite 100)] : List (String × JSNumber)),
        normalizeModelId c.1 ≠ normalizeModelId "never-seen") ∧
      getModelContextWindow
        (runRecords [("a", JSNumber.finite 100)] []) "never-seen" = none :=
  ⟨by decide, by decide,
    lookup_unrecorded_key_returns_none [("a", JSNumber.finite 100)]
      "never-seen" (by decide) (by decide)⟩

end Proma
